import Mathlib

/-!
Verification development for the SADG dataset-ingestion core
(`scene/dataset_readers.py`, `utils/camera_utils.py`).

The Python code is shallowly embedded over exact rational arithmetic:
numpy float arrays become functions `Fin n → ℚ`, matrices become Mathlib
matrices over `ℚ`, fallible code returns `Except`/`Option`.  Floating-point
rounding is idealized away (all tolerance claims hold with error 0 in this
semantics).  The Euclidean bounding-sphere radius involves a square root,
which is irrational in general; it is therefore represented by a parameter
`r` constrained by `0 ≤ r` and `r ^ 2 = diagSq cams` (the squared radius,
which is rational and computable), exactly characterizing the value
`np.max(dist)` that the source computes.
-/

set_option maxHeartbeats 1000000
set_option maxRecDepth 8000

namespace SADG

/-- 3-vectors over ℚ, the exact stand-in for numpy 3-vectors. -/
abbrev Vec3 := Fin 3 → ℚ

/-- 3×3 rational matrices. -/
abbrev M3 := Matrix (Fin 3) (Fin 3) ℚ

/-- 4×4 homogeneous matrices, indexed in block form (3 ⊕ 1). -/
abbrev M4 := Matrix (Fin 3 ⊕ Fin 1) (Fin 3 ⊕ Fin 1) ℚ

/-- A 3-vector as a 3×1 column block. -/
def colV (v : Vec3) : Matrix (Fin 3) (Fin 1) ℚ :=
  Matrix.of fun i _ => v i

/-- Computable nonsingular inverse of a 4×4 matrix (`np.linalg.inv`),
agreeing with Mathlib's `Inv.inv` on matrices over a field. -/
def m4inv (A : M4) : M4 := A.det⁻¹ • A.adjugate

theorem m4inv_eq_inv (A : M4) : m4inv A = A⁻¹ := by
  rw [Matrix.inv_def, Ring.inverse_eq_inv]; rfl

theorem mul_colV (M : M3) (v : Vec3) : M * colV v = colV (M.mulVec v) := by
  ext i j
  simp [colV, Matrix.mul_apply, Matrix.mulVec, Matrix.dotProduct, Fin.sum_univ_three]

theorem colV_neg_add_cancel (v : Vec3) : colV (-v) + colV v = 0 := by
  ext i j; simp [colV]

/-- Inverse of a rigid-style block matrix `[[M, t], [0, 1]]`. -/
theorem m4inv_fromBlocks (M : M3) (t : Vec3) (h : IsUnit M.det) :
    m4inv (Matrix.fromBlocks M (colV t) 0 1) =
      Matrix.fromBlocks M⁻¹ (colV (-(M⁻¹.mulVec t))) 0 1 := by
  rw [m4inv_eq_inv]
  apply Matrix.inv_eq_right_inv
  rw [Matrix.fromBlocks_multiply]
  have hMM : M * M⁻¹ = 1 := Matrix.mul_nonsing_inv _ h
  have hmv : M.mulVec (-(M⁻¹.mulVec t)) = -t := by
    rw [Matrix.mulVec_neg, Matrix.mulVec_mulVec, hMM, Matrix.one_mulVec]
  rw [mul_colV, hmv, hMM]
  simp [colV_neg_add_cancel, Matrix.fromBlocks_one]

/-- The embedded `CameraInfo` record (`dataset_readers.py` line 41).  Only the
fields any verified claim mentions are kept: the optics fields `FovY`/`FovX`
(whose computation lives in the absent `utils/graphics_utils.py`) and the
image/mask payload references are irrelevant to every claim and omitted.
Per the spec data model, `R` is stored as the transpose of the
world-to-camera rotation and `T` is the world-to-camera translation. -/
structure CameraInfo where
  uid : ℤ
  R : M3
  T : Vec3
  imageName : String
  width : ℕ
  height : ℕ
  fid : ℚ
  deriving DecidableEq

/-- Modelled from the spec: `getWorld2View2` lives in `utils/graphics_utils.py`,
which is not under `src/`.  Per the spec (§3 data model and glossary), `R` is
the transpose of the world-to-camera rotation and `T` the world-to-camera
translation, so the world-to-camera matrix assembled by `getWorld2View2(R, T)`
(with its default zero translate and unit scale) is `[[Rᵀ, T], [0, 1]]`. -/
def getWorld2View2 (R : M3) (T : Vec3) : M4 :=
  Matrix.fromBlocks R.transpose (colV T) 0 1

/-- `C2W = np.linalg.inv(getWorld2View2(cam.R, cam.T))` (lines 75–76). -/
def camC2W (cam : CameraInfo) : M4 := m4inv (getWorld2View2 cam.R cam.T)

/-- `C2W[:3, 3:4]`, the camera center collected by `getNerfppNorm` (line 79). -/
def camCenter (cam : CameraInfo) : Vec3 :=
  fun i => camC2W cam (Sum.inl i) (Sum.inr 0)

/-- `avg_cam_center = np.mean(cam_centers, axis=1)` (line 66). -/
def centroid (cams : List CameraInfo) : Vec3 :=
  fun i => ((cams.map camCenter).map (fun c => c i)).sum / cams.length

/-- Squared Euclidean distance; `np.linalg.norm` squared. -/
def distSq (v w : Vec3) : ℚ := ∑ i : Fin 3, (v i - w i) ^ 2

/-- Squared bounding-sphere radius: the square of
`diagonal = np.max(np.linalg.norm(cam_centers - center))` (lines 68–69).
All squared distances are nonnegative, so for a nonempty camera list the
fold with base 0 is exactly the maximum the source computes. -/
def diagSq (cams : List CameraInfo) : ℚ :=
  ((cams.map camCenter).map (fun c => distSq c (centroid cams))).foldr max 0

/-- `c2ws[:, :3, -1] += translate; c2ws[:, :3, -1] /= radius` (lines 85–86):
the translation column of a camera-to-world matrix is shifted and divided. -/
def setTransCol (A : M4) (translate : Vec3) (r : ℚ) : M4 :=
  Matrix.of fun i j =>
    match i, j with
    | Sum.inl i3, Sum.inr _ => (A (Sum.inl i3) (Sum.inr 0) + translate i3) / r
    | i, j => A i j

/-- The per-camera body of the `apply` branch of `getNerfppNorm`
(lines 83–90): shift/scale the camera-to-world translation column, invert
back to world-to-camera, and rebuild `R := w2c[:3, :3].T`, `T := w2c[:3, 3]`.
`r` stands for the bounding-sphere radius (see the module docstring). -/
def bakeCam (translate : Vec3) (r : ℚ) (cam : CameraInfo) : CameraInfo :=
  let w2cNew := m4inv (setTransCol (camC2W cam) translate r)
  { cam with
      R := Matrix.of fun a b => w2cNew (Sum.inl b) (Sum.inl a)
      T := fun i => w2cNew (Sum.inl i) (Sum.inr 0) }

/-- The record returned by `getNerfppNorm(cam_info, apply=True)` (line 95).
The source assigns the Python scalar `0` to `translate`; it is embedded as
the zero vector. -/
structure NormApplyRec where
  translate : Vec3
  radius : ℚ
  applyTranslate : Vec3
  applyRadius : ℚ
  deriving DecidableEq

/-- `getNerfppNorm(cam_info, apply=True)` (lines 63–95): computes the centroid
of the camera centers, bakes `(center + translate) / radius` into every
camera pose, and returns the rewritten cameras together with the record
`{translate: 0, radius: 1, apply_translate: -centroid, apply_radius: radius}`.
The parameter `r` is the bounding-sphere radius `diagonal`; the source has no
guard of any kind on it before dividing. -/
def getNerfppNormApply (cams : List CameraInfo) (r : ℚ) :
    List CameraInfo × NormApplyRec :=
  let center := centroid cams
  let translate : Vec3 := fun i => -center i
  let camsNew := cams.map (bakeCam translate r)
  (camsNew,
   { translate := 0, radius := 1, applyTranslate := translate, applyRadius := r })

/-! ### Pose algebra for the Scene Normalizer -/

theorem camC2W_eq (cam : CameraInfo) (h : cam.R.det ≠ 0) :
    camC2W cam =
      Matrix.fromBlocks cam.R.transpose⁻¹
        (colV (-(cam.R.transpose⁻¹.mulVec cam.T))) 0 1 := by
  have hu : IsUnit cam.R.transpose.det := by
    rw [Matrix.det_transpose]; exact isUnit_iff_ne_zero.mpr h
  exact m4inv_fromBlocks cam.R.transpose cam.T hu

theorem camCenter_eq (cam : CameraInfo) (h : cam.R.det ≠ 0) :
    camCenter cam = -(cam.R.transpose⁻¹.mulVec cam.T) := by
  funext i
  rw [camCenter, camC2W_eq cam h]
  simp [Matrix.fromBlocks_apply₁₂, colV]

theorem setTransCol_fromBlocks (P : M3) (c translate : Vec3) (r : ℚ) :
    setTransCol (Matrix.fromBlocks P (colV c) 0 1) translate r =
      Matrix.fromBlocks P (colV (fun i => (c i + translate i) / r)) 0 1 := by
  ext i j
  rcases i with i3 | i1 <;> rcases j with j3 | j1 <;>
    simp [setTransCol, colV, Matrix.fromBlocks_apply₁₁, Matrix.fromBlocks_apply₁₂,
      Matrix.fromBlocks_apply₂₁, Matrix.fromBlocks_apply₂₂]

/-- Baking leaves `R` untouched and rewrites `T` to
`-Rᵀ · ((center + translate) / r)`. -/
theorem bakeCam_eq (translate : Vec3) (r : ℚ) (cam : CameraInfo)
    (h : cam.R.det ≠ 0) :
    bakeCam translate r cam =
      { cam with
          T := -(cam.R.transpose.mulVec
                  (fun i => (camCenter cam i + translate i) / r)) } := by
  have hu : IsUnit cam.R.transpose.det := by
    rw [Matrix.det_transpose]; exact isUnit_iff_ne_zero.mpr h
  have huInv : IsUnit cam.R.transpose⁻¹.det := by
    rw [Matrix.det_nonsing_inv, Ring.inverse_eq_inv]
    rw [Matrix.det_transpose]
    exact (isUnit_iff_ne_zero.mpr (inv_ne_zero h))
  have hstep : setTransCol (camC2W cam) translate r =
      Matrix.fromBlocks cam.R.transpose⁻¹
        (colV (fun i => (camCenter cam i + translate i) / r)) 0 1 := by
    rw [camC2W_eq cam h, setTransCol_fromBlocks]
    funext i
    rw [camCenter_eq cam h]
  rw [bakeCam, hstep,
    m4inv_fromBlocks _ _ huInv, Matrix.nonsing_inv_nonsing_inv _ hu]
  rcases cam with ⟨uid, R, T, nm, w, ht, fid⟩
  simp only [CameraInfo.mk.injEq, and_true, true_and]
  constructor
  · ext a b
    simp [Matrix.fromBlocks_apply₁₁, Matrix.transpose_apply]
  · funext i
    simp [Matrix.fromBlocks_apply₁₂, colV]

/-- The center of a baked camera is `(center + translate) / r`. -/
theorem camCenter_bake (translate : Vec3) (r : ℚ) (cam : CameraInfo)
    (h : cam.R.det ≠ 0) :
    camCenter (bakeCam translate r cam) =
      fun i => (camCenter cam i + translate i) / r := by
  have hu : IsUnit cam.R.transpose.det := by
    rw [Matrix.det_transpose]; exact isUnit_iff_ne_zero.mpr h
  rw [bakeCam_eq translate r cam h]
  rw [camCenter_eq _ (by simpa using h)]
  funext i
  rw [Matrix.mulVec_neg, neg_neg, Matrix.mulVec_mulVec,
    Matrix.nonsing_inv_mul _ hu, Matrix.one_mulVec]

/-! ### List arithmetic helpers -/

theorem sum_map_shift_div (l : List ℚ) (a r : ℚ) :
    (l.map (fun x => (x + a) / r)).sum = (l.sum + l.length * a) / r := by
  induction l with
  | nil => simp
  | cons x xs ih =>
    simp only [List.map_cons, List.sum_cons, List.length_cons, ih]
    push_cast
    ring

theorem foldr_max_map_div (l : List ℚ) (s : ℚ) (hs : 0 ≤ s) :
    (l.map (fun x => x / s)).foldr max 0 = (l.foldr max 0) / s := by
  induction l with
  | nil => simp
  | cons x xs ih =>
    simp only [List.map_cons, List.foldr_cons, ih]
    rw [max_div_div_right hs]

theorem centroid_apply (cams : List CameraInfo) (i : Fin 3) :
    centroid cams i = (cams.map (fun c => camCenter c i)).sum / cams.length := by
  simp only [centroid, List.map_map]
  rfl

/-- After baking with translate `-centroid`, the camera centers have
centroid `0`. -/
theorem centroid_baked (cams : List CameraInfo) (r : ℚ)
    (hne : cams ≠ []) (hdet : ∀ cam ∈ cams, cam.R.det ≠ 0) :
    centroid (cams.map (bakeCam (fun i => -centroid cams i) r)) = 0 := by
  have hlen : ((cams.length : ℚ)) ≠ 0 := by
    exact_mod_cast fun h => hne (List.length_eq_zero.mp (by exact_mod_cast h))
  funext i
  rw [centroid_apply, List.map_map]
  have hmap : cams.map ((fun c => camCenter c i) ∘ bakeCam (fun j => -centroid cams j) r)
      = cams.map (fun c => (camCenter c i + -centroid cams i) / r) := by
    apply List.map_congr_left
    intro cam hc
    simp only [Function.comp_apply]
    rw [camCenter_bake _ _ _ (hdet cam hc)]
  rw [hmap]
  have h2 : cams.map (fun c => (camCenter c i + -centroid cams i) / r)
      = (cams.map (fun c => camCenter c i)).map (fun x => (x + -centroid cams i) / r) := by
    rw [List.map_map]
    rfl
  rw [h2, sum_map_shift_div, List.length_map, List.length_map, centroid_apply]
  rw [mul_neg, mul_div_cancel₀ _ hlen]
  simp

theorem distSq_shift_div (v t : Vec3) (r : ℚ) :
    distSq (fun i => (v i + t i) / r) 0 = distSq v (fun i => -t i) / r ^ 2 := by
  simp only [distSq, Pi.zero_apply, sub_zero, sub_neg_eq_add]
  rw [Finset.sum_div]
  apply Finset.sum_congr rfl
  intro i _
  rw [div_pow]

/-- After baking with translate `-centroid` and radius `r > 0`, the squared
bounding-sphere radius is divided by `r²`. -/
theorem diagSq_baked (cams : List CameraInfo) (r : ℚ)
    (hne : cams ≠ []) (hdet : ∀ cam ∈ cams, cam.R.det ≠ 0) (hr : 0 < r) :
    diagSq (cams.map (bakeCam (fun i => -centroid cams i) r)) = diagSq cams / r ^ 2 := by
  rw [diagSq, centroid_baked cams r hne hdet]
  have hmap : ((cams.map (bakeCam (fun i => -centroid cams i) r)).map camCenter).map
        (fun c => distSq c 0)
      = ((cams.map camCenter).map (fun c => distSq c (centroid cams))).map
        (fun x => x / r ^ 2) := by
    rw [List.map_map, List.map_map, List.map_map, List.map_map]
    apply List.map_congr_left
    intro cam hc
    simp only [Function.comp_apply]
    rw [camCenter_bake _ _ _ (hdet cam hc), distSq_shift_div]
    simp only [neg_neg]
  rw [hmap, foldr_max_map_div _ _ (by positivity), diagSq]

/-- Baking with zero translate and unit radius is the identity on any camera
with invertible rotation. -/
theorem bakeCam_id (cam : CameraInfo) (h : cam.R.det ≠ 0) :
    bakeCam (fun _ => (0 : ℚ)) 1 cam = cam := by
  rw [bakeCam_eq _ _ _ h]
  have hu : IsUnit cam.R.transpose.det := by
    rw [Matrix.det_transpose]; exact isUnit_iff_ne_zero.mpr h
  have hfun : (fun i => (camCenter cam i + 0) / 1) = camCenter cam := by
    funext i; simp
  have hT : -(cam.R.transpose.mulVec (fun i => (camCenter cam i + 0) / 1)) = cam.T := by
    rw [hfun, camCenter_eq cam h, Matrix.mulVec_neg, neg_neg, Matrix.mulVec_mulVec,
      Matrix.mul_nonsing_inv _ hu, Matrix.one_mulVec]
  rw [hT]

/-- `diagSq` of a single-camera list is `0`: its only center coincides with
the centroid. -/
theorem diagSq_singleton (cam : CameraInfo) : diagSq [cam] = 0 := by
  have hc : centroid [cam] = camCenter cam := by
    funext i; rw [centroid_apply]; simp
  simp [diagSq, hc, distSq]

/-! ### Claims C2 and C3: Scene Normalizer bake mode -/

/-- A concrete single camera (identity rotation): its bounding sphere has
radius 0. -/
def camB : CameraInfo :=
  { uid := 0, R := 1, T := fun _ => 2, imageName := "0002",
    width := 8, height := 8, fid := 0 }

/-- A concrete single camera used for the C3 counterexample. -/
def camA : CameraInfo :=
  { uid := 0, R := 1, T := fun _ => 1, imageName := "0000",
    width := 8, height := 8, fid := 0 }

/-- C2 (counterexample): for the single-camera list `[camB]` the
bounding-sphere radius is 0 (the only `r ≥ 0` with `r² = diagSq` is 0), and
bake mode emits `apply_radius = 0`, not 1: the source has no radius-0-as-1
guard, so the claim "radius 0 is treated as 1" is false at this input. -/
theorem C2_zero_radius_counterexample :
    diagSq [camB] = 0 ∧ (0 : ℚ) ≤ 0 ∧ (0 : ℚ) ^ 2 = diagSq [camB] ∧
    (getNerfppNormApply [camB] 0).2.applyRadius = 0 ∧ ((0 : ℚ) ≠ 1) := by
  refine ⟨diagSq_singleton _, le_refl 0, ?_, rfl, by norm_num⟩
  rw [diagSq_singleton]; norm_num

/-- C2 (amended): `getNerfppNorm` in bake mode has no zero-radius guard.
For any single-camera list the only admissible bounding-sphere radius is 0,
and the emitted `apply_radius` is that raw radius 0 — the positions are
divided by it unchanged (in IEEE float arithmetic this is a division by
zero producing non-finite poses; radius 0 is never replaced by 1). -/
theorem C2_zero_radius_amended (cam : CameraInfo) (r : ℚ)
    (h0 : 0 ≤ r) (hsq : r ^ 2 = diagSq [cam]) :
    r = 0 ∧ (getNerfppNormApply [cam] r).2.applyRadius = 0 := by
  have hr0 : r = 0 := by
    rw [diagSq_singleton] at hsq
    exact (pow_eq_zero_iff (two_ne_zero)).mp hsq
  subst hr0
  exact ⟨rfl, rfl⟩

/-- Witness for `C2_zero_radius_amended` at the concrete camera `camB`. -/
theorem C2_zero_radius_witness :
    ((0 : ℚ) ≤ 0 ∧ (0 : ℚ) ^ 2 = diagSq [camB]) ∧
    ((0 : ℚ) = 0 ∧ (getNerfppNormApply [camB] 0).2.applyRadius = 0) := by
  have h0 : (0 : ℚ) ≤ 0 := le_refl 0
  have hsq : (0 : ℚ) ^ 2 = diagSq [camB] := by rw [diagSq_singleton]; norm_num
  exact ⟨⟨h0, hsq⟩, C2_zero_radius_amended camB 0 h0 hsq⟩

/-- C3: bake-mode normalization of a nonempty camera list with invertible
rotations and positive bounding-sphere radius `r` yields cameras whose
centers have centroid 0 and squared radius 1, emits
`{translate: 0, radius: 1, apply_translate: -centroid, apply_radius: r}`,
and a second bake-mode run (with its admissible radius `r₂`) returns the
cameras unchanged together with
`{translate: 0, radius: 1, apply_translate: 0, apply_radius: 1}`. -/
theorem C3_bake_idempotent (cams : List CameraInfo) (r : ℚ)
    (hne : cams ≠ []) (hdet : ∀ cam ∈ cams, cam.R.det ≠ 0)
    (hr : 0 < r) (hsq : r ^ 2 = diagSq cams) :
    centroid (getNerfppNormApply cams r).1 = 0 ∧
    diagSq (getNerfppNormApply cams r).1 = 1 ∧
    (getNerfppNormApply cams r).2 =
      { translate := 0, radius := 1,
        applyTranslate := fun i => -centroid cams i, applyRadius := r } ∧
    ∀ r2 : ℚ, 0 ≤ r2 → r2 ^ 2 = diagSq (getNerfppNormApply cams r).1 →
      getNerfppNormApply (getNerfppNormApply cams r).1 r2 =
        ((getNerfppNormApply cams r).1,
         { translate := 0, radius := 1,
           applyTranslate := fun _ => 0, applyRadius := 1 }) := by
  have h1 : (getNerfppNormApply cams r).1
      = cams.map (bakeCam (fun i => -centroid cams i) r) := rfl
  have hcent : centroid (getNerfppNormApply cams r).1 = 0 := by
    rw [h1]; exact centroid_baked cams r hne hdet
  have hdiag : diagSq (getNerfppNormApply cams r).1 = 1 := by
    rw [h1, diagSq_baked cams r hne hdet hr, ← hsq,
      div_self (pow_ne_zero 2 (ne_of_gt hr))]
  refine ⟨hcent, hdiag, rfl, ?_⟩
  intro r2 h0 h2
  have hr2 : r2 = 1 := by
    rw [hdiag] at h2
    have hf : (r2 - 1) * (r2 + 1) = 0 := by linear_combination h2
    rcases mul_eq_zero.mp hf with h | h
    · linarith
    · linarith
  subst hr2
  have hdet2 : ∀ c ∈ (getNerfppNormApply cams r).1, c.R.det ≠ 0 := by
    rw [h1]
    intro c hc
    rcases List.mem_map.mp hc with ⟨cam, hcam, hceq⟩
    rw [← hceq, bakeCam_eq _ _ _ (hdet cam hcam)]
    exact hdet cam hcam
  have htr : (fun i => -centroid (getNerfppNormApply cams r).1 i)
      = (fun _ : Fin 3 => (0 : ℚ)) := by
    funext i; rw [hcent]; simp
  have hfst : (getNerfppNormApply (getNerfppNormApply cams r).1 1).1
      = (getNerfppNormApply cams r).1 := by
    show (getNerfppNormApply cams r).1.map
        (bakeCam (fun i => -centroid (getNerfppNormApply cams r).1 i) 1)
      = (getNerfppNormApply cams r).1
    rw [htr]
    calc (getNerfppNormApply cams r).1.map (bakeCam (fun _ => (0 : ℚ)) 1)
        = (getNerfppNormApply cams r).1.map id :=
          List.map_congr_left (fun c hc => bakeCam_id c (hdet2 c hc))
      _ = (getNerfppNormApply cams r).1 := List.map_id _
  have hsnd : (getNerfppNormApply (getNerfppNormApply cams r).1 1).2
      = { translate := 0, radius := 1,
          applyTranslate := fun _ => 0, applyRadius := 1 } := by
    show ({ translate := 0, radius := 1,
            applyTranslate := fun i => -centroid (getNerfppNormApply cams r).1 i,
            applyRadius := 1 } : NormApplyRec) = _
    rw [htr]
  rw [Prod.ext_iff]
  exact ⟨hfst, hsnd⟩

/-- C3 (counterexample): for the single-camera list `[camA]` the admissible
radius is 0, and after one bake-mode run the resulting squared
bounding-sphere radius is 0, not 1 — so bake mode is not idempotent on
every camera list. -/
theorem C3_bake_idempotent_counterexample :
    (0 : ℚ) ≤ 0 ∧ (0 : ℚ) ^ 2 = diagSq [camA] ∧
    diagSq (getNerfppNormApply [camA] 0).1 = 0 ∧ ((0 : ℚ) ≠ 1) := by
  refine ⟨le_refl 0, ?_, diagSq_singleton _, by norm_num⟩
  rw [diagSq_singleton]; norm_num

/-- Two concrete cameras with centers `(1,0,0)` and `(-1,0,0)`. -/
def camW1 : CameraInfo :=
  { uid := 1, R := 1, T := fun i => if i = 0 then -1 else 0,
    imageName := "0000", width := 8, height := 8, fid := 0 }

def camW2 : CameraInfo :=
  { uid := 2, R := 1, T := fun i => if i = 0 then 1 else 0,
    imageName := "0001", width := 8, height := 8, fid := 0 }

theorem camCenter_of_R_one (cam : CameraInfo) (hR : cam.R = 1) :
    camCenter cam = fun i => -cam.T i := by
  have hdet : cam.R.det ≠ 0 := by rw [hR]; simp
  rw [camCenter_eq cam hdet, hR]
  funext i
  simp [Matrix.transpose_one, Matrix.one_mulVec]

theorem diagSq_camW_pair : diagSq [camW1, camW2] = 1 := by
  have h1 : camCenter camW1 = fun i => if i = 0 then 1 else 0 := by
    rw [camCenter_of_R_one camW1 rfl]
    funext i
    by_cases h : i = 0 <;> simp [camW1, h]
  have h2 : camCenter camW2 = fun i => if i = 0 then -1 else 0 := by
    rw [camCenter_of_R_one camW2 rfl]
    funext i
    by_cases h : i = 0 <;> simp [camW2, h]
  have hc : centroid [camW1, camW2] = 0 := by
    funext i
    rw [centroid_apply]
    simp only [List.map_cons, List.map_nil, List.sum_cons, List.sum_nil, h1, h2]
    by_cases h : i = 0 <;> simp [h]
  rw [diagSq, hc]
  simp only [List.map_cons, List.map_nil, h1, h2, distSq, Pi.zero_apply, sub_zero,
    List.foldr_cons, List.foldr_nil, Fin.sum_univ_three]
  norm_num [show ((1 : Fin 3) ≠ 0) from by decide, show ((2 : Fin 3) ≠ 0) from by decide]

/-- Witness for `C3_bake_idempotent` at the concrete two-camera rig
`[camW1, camW2]` with radius 1. -/
theorem C3_bake_idempotent_witness :
    (([camW1, camW2] : List CameraInfo) ≠ [] ∧
     (∀ cam ∈ [camW1, camW2], cam.R.det ≠ 0) ∧
     (0 : ℚ) < 1 ∧ (1 : ℚ) ^ 2 = diagSq [camW1, camW2]) ∧
    (centroid (getNerfppNormApply [camW1, camW2] 1).1 = 0 ∧
     diagSq (getNerfppNormApply [camW1, camW2] 1).1 = 1 ∧
     (getNerfppNormApply [camW1, camW2] 1).2 =
       { translate := 0, radius := 1,
         applyTranslate := fun i => -centroid [camW1, camW2] i, applyRadius := 1 } ∧
     ∀ r2 : ℚ, 0 ≤ r2 → r2 ^ 2 = diagSq (getNerfppNormApply [camW1, camW2] 1).1 →
       getNerfppNormApply (getNerfppNormApply [camW1, camW2] 1).1 r2 =
         ((getNerfppNormApply [camW1, camW2] 1).1,
          { translate := 0, radius := 1,
            applyTranslate := fun _ => 0, applyRadius := 1 })) := by
  have hne : ([camW1, camW2] : List CameraInfo) ≠ [] := by simp
  have hdet : ∀ cam ∈ [camW1, camW2], cam.R.det ≠ 0 := by
    intro cam hc
    fin_cases hc <;> simp [camW1, camW2]
  have hr : (0 : ℚ) < 1 := one_pos
  have hsq : (1 : ℚ) ^ 2 = diagSq [camW1, camW2] := by
    rw [diagSq_camW_pair]; norm_num
  exact ⟨⟨hne, hdet, hr, hsq⟩, C3_bake_idempotent [camW1, camW2] 1 hne hdet hr hsq⟩

/-! ### readColmapCameras (lines 108–163) and claims C9, C10 -/

/-- One entry of the `cam_extrinsics` mapping.  `R` is the value
`np.transpose(qvec2rotmat(extr.qvec))` (line 123); the quaternion decode
lives in the absent `scene/colmap_loader.py`, so the already-decoded rotation
is taken as input data (no claim inspects it). -/
structure ExtrEntry where
  name : String
  R : M3
  tvec : Vec3
  cameraId : ℕ
  deriving DecidableEq

/-- One entry of the `cam_intrinsics` mapping.  The focal parameters only
feed the omitted FOV fields and are not kept. -/
structure IntrEntry where
  id : ℤ
  model : String
  width : ℕ
  height : ℕ
  deriving DecidableEq

/-- `os.path.basename(p)`: the part after the last slash. -/
def basename (p : String) : String :=
  ⟨(p.toList.reverse.takeWhile (fun ch => ch != '/')).reverse⟩

/-- `os.path.basename(image_path).split(".")[0]` (line 139): the part of the
basename before the first dot. -/
def imageStem (p : String) : String :=
  ⟨(basename p).toList.takeWhile (fun ch => ch != '.')⟩

/-- Decimal digits to a natural number, `none` on any non-digit. -/
def digitsToNat : List Char → ℕ → Option ℕ
  | [], acc => some acc
  | c :: cs, acc =>
    if c.isDigit then digitsToNat cs (acc * 10 + (c.toNat - 48)) else none

/-- Python `int(s)` for the strings occurring here: an optional minus sign
followed by decimal digits; anything else raises ValueError (`none`). -/
def pyInt (s : String) : Option ℤ :=
  match s.toList with
  | [] => none
  | '-' :: rest =>
    if rest.isEmpty then none
    else (digitsToNat rest 0).map (fun n => -(n : ℤ))
  | l => (digitsToNat l 0).map (fun n => (n : ℤ))

/-- Lines 153–157: `try: fid = int(image_name) / (num_frames - 1)
except: fid = 0.0`.  Both a parse failure and the ZeroDivisionError raised
when `num_frames == 1` land in the bare `except` arm. -/
def colmapFid (imageName : String) (numFrames : ℕ) : ℚ :=
  match pyInt imageName with
  | some k => if numFrames = 1 then 0 else (k : ℚ) / ((numFrames : ℚ) - 1)
  | none => 0

/-- Line 126–136: the camera models accepted by `readColmapCameras`. -/
def supportedModel (m : String) : Bool :=
  m = "SIMPLE_PINHOLE" || m = "PINHOLE" || m = "OPENCV" || m = "SIMPLE_RADIAL"

/-- The body of one iteration of the `readColmapCameras` loop
(lines 117–161).  `intrs` is the `cam_intrinsics` mapping (a missing
`camera_id` is a KeyError), `fs` maps an image basename stem to the pixel
size of the image file when it exists (`Image.open(...).size`).  When the
file is missing, line 140 binds `image = None` and line 141 dereferences
`image.size`: an AttributeError that aborts the read.  The mask try/except
(lines 146–152) never aborts and no claim mentions masks, so it is dropped;
`width`/`height` read from the intrinsics at lines 119–120 are overwritten
at line 141 by the image file's size. -/
def colmapCamOne (numFrames : ℕ) (intrs : ℕ → Option IntrEntry)
    (fs : String → Option (ℕ × ℕ)) (extr : ExtrEntry) :
    Except String CameraInfo :=
  match intrs extr.cameraId with
  | none => Except.error "KeyError: camera_id"
  | some intr =>
    if supportedModel intr.model then
      match fs (imageStem extr.name) with
      | none => Except.error "AttributeError: NoneType object has no attribute size"
      | some wh =>
        Except.ok { uid := intr.id, R := extr.R, T := extr.tvec,
                    imageName := imageStem extr.name,
                    width := wh.1, height := wh.2,
                    fid := colmapFid (imageStem extr.name) numFrames }
    else Except.error "Colmap camera model not handled"

/-- The `readColmapCameras` loop: per-entry records accumulated in input
order, aborting at the first uncaught exception. -/
def readColmapCamerasFrom (numFrames : ℕ) (intrs : ℕ → Option IntrEntry)
    (fs : String → Option (ℕ × ℕ)) :
    List ExtrEntry → Except String (List CameraInfo)
  | [] => Except.ok []
  | extr :: rest =>
    match colmapCamOne numFrames intrs fs extr,
          readColmapCamerasFrom numFrames intrs fs rest with
    | Except.error e, _ => Except.error e
    | Except.ok _, Except.error e => Except.error e
    | Except.ok cam, Except.ok cams => Except.ok (cam :: cams)

/-- `readColmapCameras` (lines 108–163).  `num_frames = len(cam_extrinsics)`
(line 110).  `load_image_on_the_fly` only nulls the in-memory image payload
after line 141 has already dereferenced the image size, so it cannot
influence any retained field; it is kept as a parameter so the claims can
quantify over it. -/
def readColmapCameras (extrs : List ExtrEntry) (intrs : ℕ → Option IntrEntry)
    (fs : String → Option (ℕ × ℕ)) (_loadImageOnTheFly : Bool) :
    Except String (List CameraInfo) :=
  readColmapCamerasFrom extrs.length intrs fs extrs

instance exceptDecEq {ε α : Type} [DecidableEq ε] [DecidableEq α] :
    DecidableEq (Except ε α) := fun a b =>
  match a, b with
  | Except.error e, Except.error f =>
    if h : e = f then isTrue (by rw [h]) else isFalse (fun hh => h (by cases hh; rfl))
  | Except.error _, Except.ok _ => isFalse (fun hh => by cases hh)
  | Except.ok _, Except.error _ => isFalse (fun hh => by cases hh)
  | Except.ok x, Except.ok y =>
    if h : x = y then isTrue (by rw [h]) else isFalse (fun hh => h (by cases hh; rfl))

theorem readColmapCamerasFrom_ok (numFrames : ℕ) (intrs : ℕ → Option IntrEntry)
    (fs : String → Option (ℕ × ℕ)) :
    ∀ (l : List ExtrEntry) (out : List CameraInfo),
      readColmapCamerasFrom numFrames intrs fs l = Except.ok out →
      out.length = l.length ∧
      ∀ i (h1 : i < out.length) (h2 : i < l.length),
        colmapCamOne numFrames intrs fs (l.get ⟨i, h2⟩) = Except.ok (out.get ⟨i, h1⟩)
  | [], out, h => by
    simp only [readColmapCamerasFrom] at h
    cases h
    exact ⟨rfl, fun i h1 h2 => absurd h1 (by simp)⟩
  | extr :: rest, out, h => by
    simp only [readColmapCamerasFrom] at h
    cases hone : colmapCamOne numFrames intrs fs extr with
    | error e => rw [hone] at h; cases h
    | ok cam =>
      rw [hone] at h
      cases hrest : readColmapCamerasFrom numFrames intrs fs rest with
      | error e => rw [hrest] at h; cases h
      | ok cams =>
        rw [hrest] at h
        cases h
        have ih := readColmapCamerasFrom_ok numFrames intrs fs rest cams hrest
        refine ⟨by simp [ih.1], ?_⟩
        intro i h1 h2
        match i with
        | 0 => exact hone
        | Nat.succ j =>
          exact ih.2 j (Nat.lt_of_succ_lt_succ h1) (Nat.lt_of_succ_lt_succ h2)

theorem colmapCamOne_ok (numFrames : ℕ) (intrs : ℕ → Option IntrEntry)
    (fs : String → Option (ℕ × ℕ)) (extr : ExtrEntry) (cam : CameraInfo)
    (h : colmapCamOne numFrames intrs fs extr = Except.ok cam) :
    cam.fid = colmapFid (imageStem extr.name) numFrames ∧
    fs (imageStem extr.name) = some (cam.width, cam.height) := by
  unfold colmapCamOne at h
  split at h
  · cases h
  · split at h
    · split at h
      · cases h
      · rename_i wh hfs
        cases h
        exact ⟨rfl, by rw [hfs]⟩
    · cases h

/-- C9: each camera's temporal id is computed independently: on success the
`i`-th record's `fid` is `int(image_name) / (num_frames - 1)` when its own
name parses (and the division does not fail, i.e. `num_frames ≠ 1`), and
`0.0` otherwise — a function only of that camera's own name and the global
frame count, so one unparsable name cannot change any other camera's fid. -/
theorem C9_colmap_fid_per_camera (extrs : List ExtrEntry)
    (intrs : ℕ → Option IntrEntry) (fs : String → Option (ℕ × ℕ)) (fly : Bool)
    (cams : List CameraInfo)
    (hok : readColmapCameras extrs intrs fs fly = Except.ok cams) :
    cams.length = extrs.length ∧
    ∀ i (h1 : i < cams.length) (h2 : i < extrs.length),
      (cams.get ⟨i, h1⟩).fid =
        match pyInt (imageStem ((extrs.get ⟨i, h2⟩).name)) with
        | some k => if extrs.length = 1 then 0
                    else (k : ℚ) / ((extrs.length : ℚ) - 1)
        | none => 0 := by
  have hall := readColmapCamerasFrom_ok extrs.length intrs fs extrs cams hok
  refine ⟨hall.1, ?_⟩
  intro i h1 h2
  have hone := hall.2 i h1 h2
  have := (colmapCamOne_ok extrs.length intrs fs _ _ hone).1
  rw [this, colmapFid]

/-- Concrete witness data for C9: two extrinsics entries, one with a
numeric image name, one not. -/
def extrW1 : ExtrEntry := { name := "0003.png", R := 1, tvec := fun _ => 0, cameraId := 1 }

def extrW2 : ExtrEntry := { name := "abc.png", R := 1, tvec := fun _ => 0, cameraId := 1 }

def intrW : ℕ → Option IntrEntry :=
  fun n => if n = 1 then some { id := 7, model := "PINHOLE", width := 800, height := 600 }
           else none

def fsW : String → Option (ℕ × ℕ) := fun _ => some (4, 3)

/-- The camera list the C9 witness input decodes to
(`colmapFid "0003" 2 = 3` and `colmapFid "abc" 2 = 0`,
see `colmapFid_eval_witness`). -/
def camsW : List CameraInfo :=
  [{ uid := 7, R := 1, T := fun _ => 0, imageName := "0003",
     width := 4, height := 3, fid := colmapFid "0003" 2 },
   { uid := 7, R := 1, T := fun _ => 0, imageName := "abc",
     width := 4, height := 3, fid := colmapFid "abc" 2 }]

/-- The witness fids evaluate to `3 = 3/(2-1)` and `0`. -/
theorem colmapFid_eval_witness :
    colmapFid "0003" 2 = 3 ∧ colmapFid "abc" 2 = 0 := by
  have h1 : pyInt "0003" = some 3 := by rfl
  have h2 : pyInt "abc" = none := by rfl
  constructor
  · rw [colmapFid, h1]
    norm_num
  · rw [colmapFid, h2]

/-- Witness for `C9_colmap_fid_per_camera`: the numeric name "0003" gets
`fid = 3 / (2 - 1) = 3`, the unparsable "abc" gets `fid = 0`, independently. -/
theorem C9_colmap_fid_witness :
    readColmapCameras [extrW1, extrW2] intrW fsW false = Except.ok camsW ∧
    (camsW.length = ([extrW1, extrW2] : List ExtrEntry).length ∧
     ∀ i (h1 : i < camsW.length)
       (h2 : i < ([extrW1, extrW2] : List ExtrEntry).length),
       (camsW.get ⟨i, h1⟩).fid =
         match pyInt (imageStem ((([extrW1, extrW2] : List ExtrEntry).get ⟨i, h2⟩).name)) with
         | some k => if ([extrW1, extrW2] : List ExtrEntry).length = 1 then 0
                     else (k : ℚ) / ((([extrW1, extrW2] : List ExtrEntry).length : ℚ) - 1)
         | none => 0) := by
  have hok : readColmapCameras [extrW1, extrW2] intrW fsW false = Except.ok camsW := by
    rfl
  exact ⟨hok, C9_colmap_fid_per_camera [extrW1, extrW2] intrW fsW false camsW hok⟩

/-- C10: (a) if any extrinsics entry references an image file that does not
exist, the whole read fails — also when on-the-fly image loading is
requested; (b) on success every record's `width`/`height` are exactly the
image file's pixel size (the calibration intrinsics' width/height, read at
lines 119–120, are overwritten at line 141). -/
theorem C10_missing_image_aborts (extrs : List ExtrEntry)
    (intrs : ℕ → Option IntrEntry) (fs : String → Option (ℕ × ℕ)) :
    (∀ (fly : Bool) (cams : List CameraInfo),
      (∃ extr ∈ extrs, fs (imageStem extr.name) = none) →
      readColmapCameras extrs intrs fs fly ≠ Except.ok cams) ∧
    (∀ (fly : Bool) (cams : List CameraInfo),
      readColmapCameras extrs intrs fs fly = Except.ok cams →
      ∀ i (h1 : i < cams.length) (h2 : i < extrs.length),
        fs (imageStem ((extrs.get ⟨i, h2⟩).name)) =
          some ((cams.get ⟨i, h1⟩).width, (cams.get ⟨i, h1⟩).height)) := by
  constructor
  · intro fly cams ⟨extr, hmem, hnone⟩ hok
    have hall := readColmapCamerasFrom_ok extrs.length intrs fs extrs cams hok
    rcases List.mem_iff_get.mp hmem with ⟨⟨i, hi⟩, hget⟩
    have hone := hall.2 i (by rw [hall.1]; exact hi) hi
    rw [hget] at hone
    have := (colmapCamOne_ok extrs.length intrs fs _ _ hone).2
    rw [hnone] at this
    cases this
  · intro fly cams hok i h1 h2
    have hall := readColmapCamerasFrom_ok extrs.length intrs fs extrs cams hok
    exact (colmapCamOne_ok extrs.length intrs fs _ _ (hall.2 i h1 h2)).2

/-- Witness for `C10_missing_image_aborts`: with no image files on disk the
read of a one-entry scene is not `ok` even with on-the-fly loading, and on
the successful `C9` input the record sizes equal the image file sizes. -/
theorem C10_missing_image_witness :
    readColmapCameras [extrW1] intrW (fun _ => none) true ≠ Except.ok [] ∧
    fsW (imageStem ((([extrW1, extrW2] : List ExtrEntry).get ⟨0, by decide⟩).name)) =
      some (4, 3) := by
  constructor
  · exact (C10_missing_image_aborts [extrW1] intrW (fun _ => none)).1 true []
      ⟨extrW1, List.mem_singleton.mpr rfl, rfl⟩
  · have hok : readColmapCameras [extrW1, extrW2] intrW fsW false = Except.ok camsW := by
      rfl
    exact (C10_missing_image_aborts [extrW1, extrW2] intrW fsW).2 false camsW hok 0
      (by decide) (by decide)

/-! ### Claim C4: COLMAP train/test split (lines 205–212) -/

/-- Lexicographic comparison of char lists by code point — the ordering
Python uses on the `image_name` strings in `sorted(..., key=...)`. -/
def charListLe : List Char → List Char → Bool
  | [], _ => true
  | _ :: _, [] => false
  | a :: as, b :: bs =>
    if a.toNat < b.toNat then true
    else if b.toNat < a.toNat then false
    else charListLe as bs

def strLe (a b : String) : Bool := charListLe a.toList b.toList

theorem charListLe_total : ∀ a b : List Char,
    charListLe a b = true ∨ charListLe b a = true
  | [], _ => Or.inl rfl
  | _ :: _, [] => Or.inr rfl
  | x :: xs, y :: ys => by
    simp only [charListLe]
    rcases charListLe_total xs ys with h | h <;> split_ifs <;> simp_all <;> omega

theorem charListLe_trans : ∀ a b c : List Char,
    charListLe a b = true → charListLe b c = true → charListLe a c = true
  | [], _, _, _, _ => rfl
  | _ :: _, [], _, h1, _ => by simp [charListLe] at h1
  | _ :: _, _ :: _, [], _, h2 => by simp [charListLe] at h2
  | x :: xs, y :: ys, z :: zs, h1, h2 => by
    simp only [charListLe] at h1 h2 ⊢
    split_ifs at h1 h2 ⊢ <;>
      first
        | rfl
        | omega
        | exact charListLe_trans xs ys zs h1 h2
        | simp_all

/-- `sorted(cam_infos, key=lambda x: x.image_name)` orders cameras by
image name. -/
def camLe (a b : CameraInfo) : Prop := strLe a.imageName b.imageName = true

instance : DecidableRel camLe := fun a b => by
  unfold camLe; infer_instance

instance : IsTotal CameraInfo camLe :=
  ⟨fun a b => charListLe_total a.imageName.toList b.imageName.toList⟩

instance : IsTrans CameraInfo camLe :=
  ⟨fun a b c => charListLe_trans a.imageName.toList b.imageName.toList c.imageName.toList⟩

/-- Line 205: `cam_infos = sorted(cam_infos_unsorted.copy(), key=lambda x:
x.image_name)`.  Python's sort is stable; a stable ascending sort is modelled
by insertion sort, which produces the same list. -/
def sortByImageName (cams : List CameraInfo) : List CameraInfo :=
  List.insertionSort camLe cams

/-- Lines 205–212 of `readColmapStaticSceneInfo`: the sorted list is split by
`idx % llffhold` when `eval` is set, otherwise everything is a train camera
and the test list is empty. -/
def colmapTrainTestSplit (camInfos : List CameraInfo) (eval : Bool)
    (llffhold : ℕ) : List CameraInfo × List CameraInfo :=
  let camInfosSorted := sortByImageName camInfos
  if eval then
    ((camInfosSorted.enum.filter (fun p => p.1 % llffhold != 0)).map Prod.snd,
     (camInfosSorted.enum.filter (fun p => p.1 % llffhold == 0)).map Prod.snd)
  else (camInfosSorted, [])

/-- C4: with evaluation on and hold-out stride `k > 0`, the test list is
exactly the cameras at sorted positions `i` with `i % k == 0` (in order),
the train list exactly those with `i % k ≠ 0`, the camera at sorted
position `i` lands in test when `i % k = 0` and in train otherwise, and
train ++ test is a permutation of the sorted list, which is itself the
input sorted ascending by image name; with evaluation off, every camera is
a train camera and the test list is empty. -/
theorem C4_colmap_train_test_split (camInfos : List CameraInfo) (k : ℕ)
    (hk : 0 < k) :
    colmapTrainTestSplit camInfos false k = (sortByImageName camInfos, []) ∧
    (colmapTrainTestSplit camInfos true k).2 =
      ((sortByImageName camInfos).enum.filter (fun p => p.1 % k == 0)).map Prod.snd ∧
    (colmapTrainTestSplit camInfos true k).1 =
      ((sortByImageName camInfos).enum.filter (fun p => p.1 % k != 0)).map Prod.snd ∧
    (∀ i (h : i < (sortByImageName camInfos).length),
      (i % k = 0 →
        (sortByImageName camInfos).get ⟨i, h⟩ ∈ (colmapTrainTestSplit camInfos true k).2) ∧
      (i % k ≠ 0 →
        (sortByImageName camInfos).get ⟨i, h⟩ ∈ (colmapTrainTestSplit camInfos true k).1)) ∧
    ((colmapTrainTestSplit camInfos true k).1 ++
        (colmapTrainTestSplit camInfos true k).2).Perm (sortByImageName camInfos) ∧
    (sortByImageName camInfos).Perm camInfos ∧
    List.Sorted camLe (sortByImageName camInfos) := by
  refine ⟨rfl, rfl, rfl, ?_, ?_, List.perm_insertionSort camLe camInfos,
    List.sorted_insertionSort camLe camInfos⟩
  · intro i h
    have hmem : ((i, (sortByImageName camInfos).get ⟨i, h⟩)) ∈
        (sortByImageName camInfos).enum := by
      have hlen : i < (sortByImageName camInfos).enum.length := by
        rw [List.enum_length]; exact h
      have := List.getElem_enum (sortByImageName camInfos) i hlen
      rw [List.get_eq_getElem]
      rw [← this]
      exact List.getElem_mem hlen
    constructor
    · intro hz
      refine List.mem_map.mpr ⟨(i, (sortByImageName camInfos).get ⟨i, h⟩), ?_, rfl⟩
      exact List.mem_filter.mpr ⟨hmem, by simp [hz]⟩
    · intro hz
      refine List.mem_map.mpr ⟨(i, (sortByImageName camInfos).get ⟨i, h⟩), ?_, rfl⟩
      exact List.mem_filter.mpr ⟨hmem, by simp [hz]⟩
  · have hperm := List.filter_append_perm
      (fun p : ℕ × CameraInfo => p.1 % k == 0) (sortByImageName camInfos).enum
    have h2 := (List.perm_append_comm.trans hperm).map Prod.snd
    rw [List.map_append, List.enum_map_snd] at h2
    exact h2

def camS1 : CameraInfo :=
  { uid := 1, R := 1, T := fun _ => 0, imageName := "b",
    width := 1, height := 1, fid := 0 }

def camS2 : CameraInfo :=
  { uid := 2, R := 1, T := fun _ => 0, imageName := "a",
    width := 1, height := 1, fid := 0 }

def camS3 : CameraInfo :=
  { uid := 3, R := 1, T := fun _ => 0, imageName := "c",
    width := 1, height := 1, fid := 0 }

/-- Witness for `C4_colmap_train_test_split` on a concrete three-camera
scene with stride 2. -/
theorem C4_colmap_split_witness :
    (0 < 2) ∧
    colmapTrainTestSplit [camS1, camS2, camS3] false 2 =
      (sortByImageName [camS1, camS2, camS3], []) ∧
    ((colmapTrainTestSplit [camS1, camS2, camS3] true 2).1 ++
        (colmapTrainTestSplit [camS1, camS2, camS3] true 2).2).Perm
      (sortByImageName [camS1, camS2, camS3]) := by
  have h := C4_colmap_train_test_split [camS1, camS2, camS3] 2 (by norm_num)
  exact ⟨by norm_num, h.1, h.2.2.2.2.1⟩

/-! ### Claim C5: Point-Cloud Store round trip (lines 165–188) -/

/-- One "vertex" element of the PLY file, with the dtype of line 175–177:
positions and normals as floats (idealized to exact rationals; the f4
quantization has error 0 in this semantics), colors as unsigned bytes. -/
structure PlyVertex where
  x : ℚ
  y : ℚ
  z : ℚ
  nx : ℚ
  ny : ℚ
  nz : ℚ
  red : ℕ
  green : ℕ
  blue : ℕ
  deriving DecidableEq

/-- `BasicPointCloud` from `scene/gaussian_model.py` (as consumed here):
positions, colors and normals, row per point. -/
structure BasicPointCloud where
  points : List Vec3
  colors : List Vec3
  normals : List Vec3
  deriving DecidableEq

/-- The numpy cast of a float color channel to dtype `u1`, for the
nonnegative in-range values that occur here: truncation toward zero. -/
def u1cast (q : ℚ) : ℕ := (⌊q⌋).toNat

/-- `storePly(path, xyz, rgb)` (lines 173–188): rows are
`(x, y, z, nx, ny, nz, red, green, blue)` with `normals = np.zeros_like(xyz)`
(line 179) and the color channels cast to `u1`.  The file is the list of
vertex records of the single "vertex" element (line 186). -/
def storePly (xyz : List Vec3) (rgb : List Vec3) : List PlyVertex :=
  List.zipWith
    (fun p c =>
      { x := p 0, y := p 1, z := p 2, nx := 0, ny := 0, nz := 0,
        red := u1cast (c 0), green := u1cast (c 1), blue := u1cast (c 2) })
    xyz rgb

/-- `fetchPly(path)` (lines 165–171): positions from `x,y,z`, colors from
`red,green,blue` divided by 255, normals from `nx,ny,nz`. -/
def fetchPly (file : List PlyVertex) : BasicPointCloud :=
  { points := file.map (fun v => ![v.x, v.y, v.z]),
    colors := file.map (fun v => ![(v.red : ℚ) / 255, (v.green : ℚ) / 255, (v.blue : ℚ) / 255]),
    normals := file.map (fun v => ![v.nx, v.ny, v.nz]) }

theorem vec3_eta (p : Vec3) : ![p 0, p 1, p 2] = p := by
  funext i
  fin_cases i <;> rfl

theorem u1cast_coe (n : ℕ) : u1cast (n : ℚ) = n := by
  rw [u1cast, Int.floor_natCast, Int.toNat_natCast]

theorem fetch_color_head (c : Vec3) (hb : ∀ i, ∃ n : ℕ, n ≤ 255 ∧ c i = n) :
    ![(u1cast (c 0) : ℚ) / 255, (u1cast (c 1) : ℚ) / 255, (u1cast (c 2) : ℚ) / 255]
      = fun i => c i / 255 := by
  have hcast : ∀ i, (u1cast (c i) : ℚ) = c i := by
    intro i
    rcases hb i with ⟨n, -, hn⟩
    rw [hn, u1cast_coe]
  funext i
  fin_cases i <;>
    simp [Matrix.cons_val_zero, Matrix.cons_val_one, Matrix.head_cons, hcast]

/-- C5: writing positions and byte colors with `storePly` and reading them
back with `fetchPly` returns the positions exactly (within f4 tolerance,
which is 0 in this exact semantics), the colors exactly equal to the
originals divided by 255 (within 1/255), and all-zero normals. -/
theorem C5_ply_roundtrip (xyz rgb : List Vec3)
    (hlen : xyz.length = rgb.length)
    (hbytes : ∀ c ∈ rgb, ∀ i, ∃ n : ℕ, n ≤ 255 ∧ c i = n) :
    fetchPly (storePly xyz rgb) =
      { points := xyz,
        colors := rgb.map (fun c => fun i => c i / 255),
        normals := xyz.map (fun _ => fun _ => (0 : ℚ)) } := by
  induction xyz generalizing rgb with
  | nil =>
    cases rgb with
    | nil => rfl
    | cons c cs => simp at hlen
  | cons p ps ih =>
    cases rgb with
    | nil => simp at hlen
    | cons c cs =>
      have hlen2 : ps.length = cs.length := by simpa using hlen
      have hb2 : ∀ c0 ∈ cs, ∀ i, ∃ n : ℕ, n ≤ 255 ∧ c0 i = n :=
        fun c0 h i => hbytes c0 (List.mem_cons_of_mem _ h) i
      have ihres := ih cs hlen2 hb2
      have hpts := congrArg BasicPointCloud.points ihres
      have hcol := congrArg BasicPointCloud.colors ihres
      have hnrm := congrArg BasicPointCloud.normals ihres
      simp only [fetchPly, storePly, List.zipWith_cons_cons, List.map_cons] at hpts hcol hnrm ⊢
      simp only [BasicPointCloud.mk.injEq]
      refine ⟨?_, ?_, ?_⟩
      · rw [List.cons.injEq]
        exact ⟨vec3_eta p, hpts⟩
      · rw [List.cons.injEq]
        exact ⟨fetch_color_head c (fun i => hbytes c (List.mem_cons_self c cs) i), hcol⟩
      · rw [List.cons.injEq]
        refine ⟨?_, hnrm⟩
        funext i
        fin_cases i <;> rfl

/-- Witness data for C5. -/
def vW : Vec3 := fun i => if i = 0 then 1 else if i = 1 then -2 else 3 / 2

def cW : Vec3 := fun _ => 200

/-- Witness for `C5_ply_roundtrip` at one concrete point with color bytes
`(200, 200, 200)`. -/
theorem C5_ply_roundtrip_witness :
    (([vW] : List Vec3).length = ([cW] : List Vec3).length ∧
     (∀ c ∈ ([cW] : List Vec3), ∀ i, ∃ n : ℕ, n ≤ 255 ∧ c i = n)) ∧
    fetchPly (storePly [vW] [cW]) =
      { points := [vW],
        colors := ([cW] : List Vec3).map (fun c => fun i => c i / 255),
        normals := ([vW] : List Vec3).map (fun _ => fun _ => (0 : ℚ)) } := by
  have hlen : ([vW] : List Vec3).length = ([cW] : List Vec3).length := rfl
  have hbytes : ∀ c ∈ ([cW] : List Vec3), ∀ i, ∃ n : ℕ, n ≤ 255 ∧ c i = n := by
    intro c hc i
    rcases List.mem_singleton.mp hc with rfl
    exact ⟨200, by norm_num, by norm_num [cW]⟩
  exact ⟨⟨hlen, hbytes⟩, C5_ply_roundtrip [vW] [cW] hlen hbytes⟩

/-! ### Claim C7: dialect detection (lines 243–261) -/

/-- The dataset dialects distinguished at lines 243–261. -/
inductive Dialect
  | blender
  | neu3d
  | technicolor
  | immersive
  deriving DecidableEq

/-- Whether `pat` occurs as a contiguous substring of `l`
(Python `pat in l`). -/
def hasSubstr (l pat : List Char) : Bool :=
  match l with
  | [] => pat.isEmpty
  | _ :: xs => pat.isPrefixOf l || hasSubstr xs pat

def strContains (s sub : String) : Bool := hasSubstr s.toList sub.toList

/-- A transform document as probed by the Dialect Detector: only the
presence of the probed top-level keys matters (no other probe is consulted
besides the dataset root path). -/
structure TransformDoc where
  hasCameraAngleX : Bool
  hasFlX : Bool
  hasFlY : Bool
  hasCx : Bool
  hasCy : Bool
  deriving DecidableEq

/-- Lines 243–261 of `readCamerasFromTransforms`: `camera_angle_x` present →
blender with `time_duration = None`; else all of `fl_x`, `fl_y`, `cx`, `cy`
present → neu3d with duration `10.0`; else `'technicolor' in path` →
technicolor with duration `10.0 / 6`; else immersive with duration `10.0`. -/
def detectDialect (contents : TransformDoc) (path : String) : Dialect × Option ℚ :=
  if contents.hasCameraAngleX then (Dialect.blender, none)
  else if contents.hasFlX && contents.hasFlY && contents.hasCx && contents.hasCy then
    (Dialect.neu3d, some 10)
  else if strContains path "technicolor" then (Dialect.technicolor, some (10 / 6))
  else (Dialect.immersive, some 10)

/-- C7: the dialect classification follows exactly the stated precedence:
uniform-FOV (blender, no duration) iff the shared-FOV key is present;
per-camera-intrinsics (neu3d, duration 10) iff that key is absent and all
four of fl_x, fl_y, cx, cy are present; technicolor (duration 10/6) iff
neither holds and the path contains 'technicolor'; generic multi-view
(immersive, duration 10) otherwise — and nothing else decides the dialect. -/
theorem C7_dialect_detection (contents : TransformDoc) (path : String) :
    (detectDialect contents path = (Dialect.blender, none) ↔
      contents.hasCameraAngleX = true) ∧
    (detectDialect contents path = (Dialect.neu3d, some 10) ↔
      (contents.hasCameraAngleX = false ∧
       (contents.hasFlX && contents.hasFlY && contents.hasCx && contents.hasCy) = true)) ∧
    (detectDialect contents path = (Dialect.technicolor, some (10 / 6)) ↔
      (contents.hasCameraAngleX = false ∧
       (contents.hasFlX && contents.hasFlY && contents.hasCx && contents.hasCy) = false ∧
       strContains path "technicolor" = true)) ∧
    (detectDialect contents path = (Dialect.immersive, some 10) ↔
      (contents.hasCameraAngleX = false ∧
       (contents.hasFlX && contents.hasFlY && contents.hasCx && contents.hasCy) = false ∧
       strContains path "technicolor" = false)) := by
  rcases contents with ⟨a, f1, f2, f3, f4⟩
  cases a <;> cases f1 <;> cases f2 <;> cases f3 <;> cases f4 <;>
    cases hp : strContains path "technicolor" <;>
      simp [detectDialect, hp]

/-! ### Claim C6: Frame Decoder cutoff (lines 265–280, 379–384) -/

/-- A frame descriptor: only the fields the cutoff logic touches
(`file_path` and `time`); the transform matrix and image payload are
irrelevant to the claim and omitted. -/
structure FrameDesc where
  filePath : String
  time : ℚ
  deriving DecidableEq

/-- One decoded frame as retained for the claim: the input index (the
`idx` the caller zips in, line 380), the possibly-rescaled time (the
record's `fid`), and the file path. -/
structure FrameOut where
  idx : ℕ
  time : ℚ
  filePath : String
  deriving DecidableEq

/-- Line 269: `fid = int(frame['file_path'].split('/')[-1][-4:])` — the
LAST FOUR CHARACTERS of the last path component parsed as an integer
(a ValueError aborts the decode). -/
def frameIndexOf (filePath : String) : Option ℤ :=
  pyInt ⟨((basename filePath).toList.reverse.take 4).reverse⟩

/-- `frame_read_fn` (lines 265–280): with a known capture duration and
`end_frame ≠ -1`, the time is divided by `(end_frame / 300) * 10` and the
frame is dropped (`none`) when its index exceeds `end_frame`; with the
sentinel `-1` the time is divided by the duration; with no duration the
time passes through.  (The claim's scope has `end_frame` set; the Python
default `None` would raise a TypeError at line 274 whenever a duration is
known.) -/
def frame_read_fn (timeDuration : Option ℚ) (endFrame : ℤ)
    (idxFrame : ℕ × FrameDesc) : Except String (Option FrameOut) :=
  match frameIndexOf idxFrame.2.filePath with
  | none => Except.error "ValueError"
  | some fid =>
    match timeDuration with
    | some dur =>
      if endFrame ≠ -1 then
        if fid > endFrame then Except.ok none
        else Except.ok (some
          { idx := idxFrame.1,
            time := idxFrame.2.time / ((endFrame : ℚ) / 300 * 10),
            filePath := idxFrame.2.filePath })
      else Except.ok (some
        { idx := idxFrame.1, time := idxFrame.2.time / dur,
          filePath := idxFrame.2.filePath })
    | none => Except.ok (some
        { idx := idxFrame.1, time := idxFrame.2.time,
          filePath := idxFrame.2.filePath })

/-- The `pool.map` of lines 379–382: results in input order, aborting on
the first uncaught exception. -/
def readFramesAux (timeDuration : Option ℚ) (endFrame : ℤ) :
    List (ℕ × FrameDesc) → Except String (List (Option FrameOut))
  | [] => Except.ok []
  | p :: rest =>
    match frame_read_fn timeDuration endFrame p,
          readFramesAux timeDuration endFrame rest with
    | Except.error e, _ => Except.error e
    | Except.ok _, Except.error e => Except.error e
    | Except.ok r, Except.ok rs => Except.ok (r :: rs)

/-- Lines 379–384: frames are zipped with their input indices, decoded, and
the `None` results are filtered out, preserving the relative order of the
rest (re-association is by input index, not completion order). -/
def readFrames (timeDuration : Option ℚ) (endFrame : ℤ)
    (frames : List FrameDesc) : Except String (List FrameOut) :=
  match readFramesAux timeDuration endFrame frames.enum with
  | Except.error e => Except.error e
  | Except.ok results => Except.ok (results.filterMap id)

/-- Whether the source drops the frame: its last-four-characters index
exceeds the cutoff. -/
def droppedB (endFrame : ℤ) (f : FrameDesc) : Bool :=
  match frameIndexOf f.filePath with
  | some fid => decide (fid > endFrame)
  | none => false

theorem frame_read_fn_err (td : Option ℚ) (ef : ℤ) (p : ℕ × FrameDesc)
    (hfi : frameIndexOf p.2.filePath = none) :
    frame_read_fn td ef p = Except.error "ValueError" := by
  unfold frame_read_fn
  rw [hfi]

theorem frame_read_fn_drop (dur : ℚ) (ef : ℤ) (p : ℕ × FrameDesc) (fid : ℤ)
    (hef : ef ≠ -1) (hfi : frameIndexOf p.2.filePath = some fid) (hgt : fid > ef) :
    frame_read_fn (some dur) ef p = Except.ok none := by
  unfold frame_read_fn
  rw [hfi]
  simp [hef, hgt]

theorem frame_read_fn_keep (dur : ℚ) (ef : ℤ) (p : ℕ × FrameDesc) (fid : ℤ)
    (hef : ef ≠ -1) (hfi : frameIndexOf p.2.filePath = some fid) (hgt : ¬fid > ef) :
    frame_read_fn (some dur) ef p = Except.ok (some
      { idx := p.1, time := p.2.time / ((ef : ℚ) / 300 * 10),
        filePath := p.2.filePath }) := by
  unfold frame_read_fn
  rw [hfi]
  simp [hef, hgt]

theorem readFramesAux_spec (dur : ℚ) (ef : ℤ) (hef : ef ≠ -1) :
    ∀ (n : ℕ) (frames : List FrameDesc) (res : List (Option FrameOut)),
      readFramesAux (some dur) ef (List.enumFrom n frames) = Except.ok res →
      (res.filterMap id).length = (frames.filter (fun f => !droppedB ef f)).length ∧
      (res.filterMap id).map FrameOut.idx =
        ((List.enumFrom n frames).filter (fun p => !droppedB ef p.2)).map Prod.fst ∧
      ∀ o ∈ res.filterMap id, ∃ f : FrameDesc,
        (o.idx, f) ∈ List.enumFrom n frames ∧ droppedB ef f = false ∧
        o.filePath = f.filePath ∧ o.time = f.time / ((ef : ℚ) / 300 * 10)
  | n, [], res, h => by
    simp only [List.enumFrom, readFramesAux] at h
    cases h
    refine ⟨rfl, rfl, ?_⟩
    intro o ho
    simp at ho
  | n, f :: fs, res, h => by
    simp only [List.enumFrom, readFramesAux] at h
    cases hfi : frameIndexOf f.filePath with
    | none =>
      rw [frame_read_fn_err (some dur) ef (n, f) hfi] at h
      cases h
    | some fid =>
      by_cases hgt : fid > ef
      · rw [frame_read_fn_drop dur ef (n, f) fid hef hfi hgt] at h
        cases haux : readFramesAux (some dur) ef (List.enumFrom (n + 1) fs) with
        | error e => rw [haux] at h; cases h
        | ok rs =>
          rw [haux] at h
          cases h
          have ih := readFramesAux_spec dur ef hef (n + 1) fs rs haux
          have hdrop : droppedB ef f = true := by
            rw [droppedB, hfi]; simp [hgt]
          refine ⟨?_, ?_, ?_⟩
          · simpa [List.filter_cons, hdrop] using ih.1
          · simpa [List.filter_cons, hdrop] using ih.2.1
          · intro o ho
            simp only [List.filterMap_cons] at ho
            rcases ih.2.2 o ho with ⟨f0, hmem, hd0, hp0, ht0⟩
            exact ⟨f0, List.mem_cons_of_mem _ hmem, hd0, hp0, ht0⟩
      · rw [frame_read_fn_keep dur ef (n, f) fid hef hfi hgt] at h
        cases haux : readFramesAux (some dur) ef (List.enumFrom (n + 1) fs) with
        | error e => rw [haux] at h; cases h
        | ok rs =>
          rw [haux] at h
          cases h
          have ih := readFramesAux_spec dur ef hef (n + 1) fs rs haux
          have hkeep : droppedB ef f = false := by
            rw [droppedB, hfi]; simp [hgt]
          refine ⟨?_, ?_, ?_⟩
          · simpa [List.filter_cons, hkeep] using ih.1
          · simpa [List.filter_cons, hkeep] using ih.2.1
          · intro o ho
            simp only [List.filterMap_cons, id] at ho
            rcases List.mem_cons.mp ho with hhead | htail
            · refine ⟨f, ?_, hkeep, ?_, ?_⟩
              · rw [hhead]; exact List.mem_cons_self _ _
              · rw [hhead]
              · rw [hhead]
            · rcases ih.2.2 o htail with ⟨f0, hmem, hd0, hp0, ht0⟩
              exact ⟨f0, List.mem_cons_of_mem _ hmem, hd0, hp0, ht0⟩

/-- C6 (amended): with a known capture duration and `end_frame ≠ -1`, on a
successful decode the output length is the input frame count minus the
number of frames whose LAST-FOUR-CHARACTERS index exceeds `end_frame`;
exactly the non-dropped frames appear, re-associated by input index in the
original relative input order; and each surviving frame's time is the input
time divided by `(end_frame / 300) * 10`. -/
theorem C6_frame_cutoff (dur : ℚ) (ef : ℤ) (frames : List FrameDesc)
    (out : List FrameOut) (hef : ef ≠ -1)
    (hok : readFrames (some dur) ef frames = Except.ok out) :
    out.length = (frames.filter (fun f => !droppedB ef f)).length ∧
    out.length + (frames.filter (fun f => droppedB ef f)).length = frames.length ∧
    out.map FrameOut.idx =
      (frames.enum.filter (fun p => !droppedB ef p.2)).map Prod.fst ∧
    ∀ o ∈ out, ∃ f : FrameDesc, (o.idx, f) ∈ frames.enum ∧
      droppedB ef f = false ∧ o.filePath = f.filePath ∧
      o.time = f.time / ((ef : ℚ) / 300 * 10) := by
  unfold readFrames at hok
  cases haux : readFramesAux (some dur) ef frames.enum with
  | error e => rw [haux] at hok; cases hok
  | ok results =>
    rw [haux] at hok
    cases hok
    have henum : frames.enum = List.enumFrom 0 frames := rfl
    rw [henum] at haux
    have hspec := readFramesAux_spec dur ef hef 0 frames results haux
    have hpart : (frames.filter (fun f => droppedB ef f)).length +
        (frames.filter (fun f => !droppedB ef f)).length = frames.length := by
      have hp := (List.filter_append_perm (fun f => droppedB ef f) frames).length_eq
      rw [List.length_append] at hp
      exact hp
    refine ⟨hspec.1, by omega, ?_, ?_⟩
    · rw [henum]; exact hspec.2.1
    · rw [henum]; exact hspec.2.2

/-- The index the claim describes: the maximal trailing run of decimal
digits of the file name (following the claim and spec wording, for
comparison with the source's last-four-characters rule). -/
def specTrailingNumericIndex (filePath : String) : Option ℕ :=
  match (basename filePath).toList.reverse.takeWhile (fun ch => ch.isDigit) with
  | [] => none
  | ds => digitsToNat ds.reverse 0

/-- C6 (counterexample): for the frame named "d/12345" with cutoff 3000,
the trailing numeric run is 12345, which exceeds the cutoff — the claim
says the frame is absent — yet the source parses only the last four
characters ("2345" ≤ 3000) and keeps the frame (with its time rescaled). -/
theorem C6_frame_cutoff_counterexample :
    specTrailingNumericIndex "d/12345" = some 12345 ∧
    (3000 : ℤ) < 12345 ∧
    frameIndexOf "d/12345" = some 2345 ∧
    readFrames (some 10) 3000 [{ filePath := "d/12345", time := 1 }] =
      Except.ok [{ idx := 0, time := (1 : ℚ) / (((3000 : ℤ) : ℚ) / 300 * 10),
                   filePath := "d/12345" }] ∧
    (1 : ℚ) / (((3000 : ℤ) : ℚ) / 300 * 10) = 1 / 100 := by
  refine ⟨by rfl, by decide, by rfl, by rfl, by norm_num⟩

/-- Witness input for `C6_frame_cutoff`: frame "a/0001" is kept, frame
"a/9999" (index 9999 > 100) is dropped. -/
def framesW : List FrameDesc :=
  [{ filePath := "a/0001", time := 2 }, { filePath := "a/9999", time := 5 }]

def outW : List FrameOut :=
  [{ idx := 0, time := (2 : ℚ) / (((100 : ℤ) : ℚ) / 300 * 10), filePath := "a/0001" }]

/-- Witness for `C6_frame_cutoff` at the concrete two-frame input with
cutoff 100: one frame dropped, one kept in order. -/
theorem C6_frame_cutoff_witness :
    ((100 : ℤ) ≠ -1 ∧ readFrames (some 10) 100 framesW = Except.ok outW) ∧
    (outW.length = (framesW.filter (fun f => !droppedB 100 f)).length ∧
     outW.length + (framesW.filter (fun f => droppedB 100 f)).length = framesW.length ∧
     outW.map FrameOut.idx =
       (framesW.enum.filter (fun p => !droppedB 100 p.2)).map Prod.fst) := by
  have hef : (100 : ℤ) ≠ -1 := by decide
  have hok : readFrames (some 10) 100 framesW = Except.ok outW := by rfl
  have h := C6_frame_cutoff 10 100 framesW outW hef hok
  exact ⟨⟨hef, hok⟩, h.1, h.2.1, h.2.2.1⟩

/-! ### Claim C8: multi-view point-cloud fallback (lines 402–417) -/

/-- Modelled from the spec: `SH2RGB` from `utils/sh_utils.py` is absent from
`src/`.  The spec derives colors from "the spherical-harmonics DC term of
uniform random values"; the standard DC relation is
`SH2RGB(sh) = sh * C0 + 0.5` with `C0 = 0.28209479177387814`, the degree-0
spherical-harmonics basis constant. -/
def shC0 : ℚ := 28209479177387814 / 100000000000000000

def SH2RGB (v : Vec3) : Vec3 := fun i => v i * shC0 + 1 / 2

/-- `(fetchPly (storePly xyz rgb)).points = xyz` whenever the two inputs
have the same length (positions round-trip independently of colors). -/
theorem fetchPly_storePly_points (xyz : List Vec3) :
    ∀ rgb : List Vec3, xyz.length = rgb.length →
      (fetchPly (storePly xyz rgb)).points = xyz := by
  induction xyz with
  | nil =>
    intro rgb _
    cases rgb <;> rfl
  | cons p ps ih =>
    intro rgb hlen
    cases rgb with
    | nil => simp at hlen
    | cons c cs =>
      have hlen2 : ps.length = cs.length := by simpa using hlen
      have htail := ih cs hlen2
      simp only [fetchPly, storePly, List.zipWith_cons_cons, List.map_cons] at htail ⊢
      rw [List.cons.injEq]
      exact ⟨vec3_eta p, htail⟩

/-- The synthesized positions (line 409):
`xyz = np.random.random((num_pts, 3)) * 2.6 - 1.3` with `num_pts = 100_000`;
`xyzRand` is the uniform RNG draw. -/
def mvXyz (xyzRand : ℕ → Vec3) : List Vec3 :=
  (List.range 100000).map (fun n => fun i => xyzRand n i * (26 / 10) - 13 / 10)

/-- The synthesized SH values (line 410):
`shs = np.random.random((num_pts, 3)) / 255.0`. -/
def mvShs (shsRand : ℕ → Vec3) : List Vec3 :=
  (List.range 100000).map (fun n => fun i => shsRand n i / 255)

/-- The cache file written at line 413:
`storePly(ply_path, xyz, SH2RGB(shs) * 255)`. -/
def mvFile (xyzRand shsRand : ℕ → Vec3) : List PlyVertex :=
  storePly (mvXyz xyzRand) ((mvShs shsRand).map (fun v => fun i => SH2RGB v i * 255))

/-- Lines 402–417 of `readMultiViewInfo`, the point-cloud part.  The cache
state is the content of the `points3d.ply` file (`none` when the file does
not exist).  When absent, the 100 000 random points are synthesized
(`mvXyz`/`mvShs`) and `mvFile` is written; in every case the returned point
cloud is then read back from the file via `fetchPly(ply_path)`
(lines 414–415). -/
def readMultiViewPcd (cache : Option (List PlyVertex))
    (xyzRand shsRand : ℕ → Vec3) : Option BasicPointCloud × List PlyVertex :=
  match cache with
  | some file => (some (fetchPly file), file)
  | none => (some (fetchPly (mvFile xyzRand shsRand)), mvFile xyzRand shsRand)

theorem fetchPly_mvFile_points (xyzRand shsRand : ℕ → Vec3) :
    (fetchPly (mvFile xyzRand shsRand)).points = mvXyz xyzRand := by
  simp only [mvFile]
  exact fetchPly_storePly_points _ _ (by simp [mvXyz, mvShs])

/-- C8: with no cache file, exactly 100000 points are synthesized, their
positions are the uniform draws rescaled into `[-1.3, 1.3)` componentwise,
the colors written to the file carry the spherical-harmonics DC term of the
uniform draws (`mvFile`), the cache file is written before the returned
cloud is read back from it, and a second load against the now-existing
cache (with any fresh RNG) returns the same file and the same points
unchanged. -/
theorem C8_multiview_pcd_fallback (xyzRand shsRand rand2 rand3 : ℕ → Vec3)
    (hx : ∀ n i, 0 ≤ xyzRand n i ∧ xyzRand n i < 1) :
    readMultiViewPcd none xyzRand shsRand =
      (some (fetchPly (mvFile xyzRand shsRand)), mvFile xyzRand shsRand) ∧
    (fetchPly (mvFile xyzRand shsRand)).points = mvXyz xyzRand ∧
    (fetchPly (mvFile xyzRand shsRand)).points.length = 100000 ∧
    (∀ p ∈ (fetchPly (mvFile xyzRand shsRand)).points,
      ∀ i, -(13 / 10) ≤ p i ∧ p i < 13 / 10) ∧
    readMultiViewPcd (some (mvFile xyzRand shsRand)) rand2 rand3 =
      (some (fetchPly (mvFile xyzRand shsRand)), mvFile xyzRand shsRand) := by
  have hpts := fetchPly_mvFile_points xyzRand shsRand
  refine ⟨rfl, hpts, ?_, ?_, rfl⟩
  · rw [hpts]
    simp [mvXyz]
  · intro p hp i
    rw [hpts] at hp
    simp only [mvXyz, List.mem_map, List.mem_range] at hp
    rcases hp with ⟨n, -, rfl⟩
    rcases hx n i with ⟨h0, h1⟩
    constructor
    · show -(13 / 10) ≤ xyzRand n i * (26 / 10) - 13 / 10
      nlinarith
    · show xyzRand n i * (26 / 10) - 13 / 10 < 13 / 10
      nlinarith

/-- A concrete constant RNG stream drawing 1/2 everywhere. -/
def halfRand : ℕ → Vec3 := fun _ _ => 1 / 2

/-- Witness for `C8_multiview_pcd_fallback` at the constant-1/2 RNG. -/
theorem C8_multiview_pcd_witness :
    (∀ n i, 0 ≤ halfRand n i ∧ halfRand n i < 1) ∧
    readMultiViewPcd none halfRand halfRand =
      (some (fetchPly (mvFile halfRand halfRand)), mvFile halfRand halfRand) ∧
    (fetchPly (mvFile halfRand halfRand)).points.length = 100000 ∧
    readMultiViewPcd (some (mvFile halfRand halfRand)) halfRand halfRand =
      (some (fetchPly (mvFile halfRand halfRand)), mvFile halfRand halfRand) := by
  have hx : ∀ n i, 0 ≤ halfRand n i ∧ halfRand n i < 1 := by
    intro n i
    constructor <;> norm_num [halfRand]
  have h := C8_multiview_pcd_fallback halfRand halfRand halfRand halfRand hx
  exact ⟨hx, h.1, h.2.2.1, h.2.2.2.2⟩

/-! ### Claim C1: Nerfies/HyperNeRF temporal ids (lines 426–575) -/

/-- `dataset.json` as consumed here: the train/val id lists and the flat id
list. -/
structure NerfiesManifest where
  trainIds : List String
  valIds : List String
  ids : List String
  deriving DecidableEq

def strStartsWith (s pre : String) : Bool := pre.toList.isPrefixOf s.toList

/-- Python `l[start::4]`: every fourth element starting at `start`. -/
def strideSlice (start : ℕ) (l : List String) : List String :=
  (l.enum.filter (fun p => decide (start ≤ p.1) && decide ((p.1 - start) % 4 = 0))).map
    Prod.snd

/-- Lines 437–462 of `readNerfiesCameras`: the image selection and ratio per
dataset-name prefix (`name = path.split('/')[-2]`, taken here as input).
`vrig*`: train+val from the manifest, ratio 1/4; `NeRF*`: train+val, ratio
1/2; `interp*` and the default: train = `ids[::4]`, val = `ids[2::4]`,
ratio 1/2.  Returns `(all_img, train_num, ratio)`. -/
def nerfiesSelect (name : String) (d : NerfiesManifest) :
    List String × ℕ × ℚ :=
  if strStartsWith name "vrig" then
    (d.trainIds ++ d.valIds, d.trainIds.length, 1 / 4)
  else if strStartsWith name "NeRF" then
    (d.trainIds ++ d.valIds, d.trainIds.length, 1 / 2)
  else if strStartsWith name "interp" then
    (strideSlice 0 d.ids ++ strideSlice 2 d.ids, (strideSlice 0 d.ids).length, 1 / 2)
  else
    (strideSlice 0 d.ids ++ strideSlice 2 d.ids, (strideSlice 0 d.ids).length, 1 / 2)

/-- Lines 466–469 and 509: the per-image temporal ids of the plain-layout
reader.  `max_time = max(all_time)` (an error on an empty selection; the
fold with base 0 equals the maximum for a nonempty list of naturals), then
`fid = time_id / max_time` for each selected image, in order.  The result
pairs each image id with its fid. -/
def readNerfiesCamerasFids (name : String) (d : NerfiesManifest)
    (timeId : String → ℕ) : List (String × ℚ) :=
  let allImg := (nerfiesSelect name d).1
  let maxTime : ℕ := (allImg.map timeId).foldr max 0
  allImg.map (fun im => (im, (timeId im : ℚ) / (maxTime : ℚ)))

/-- In the plain layout every camera's fid is its `time_id` divided by the
maximum `time_id` over the selected image set — one shared time axis. -/
theorem readNerfiesCamerasFids_normalized (name : String) (d : NerfiesManifest)
    (timeId : String → ℕ) :
    ∀ p ∈ readNerfiesCamerasFids name d timeId,
      p.2 = (timeId p.1 : ℚ) /
        ((((nerfiesSelect name d).1.map timeId).foldr max 0 : ℕ) : ℚ) := by
  intro p hp
  simp only [readNerfiesCamerasFids, List.mem_map] at hp
  rcases hp with ⟨im, -, rfl⟩
  rfl

/-- Lines 530–551 of `readNerfiesColmapCameras`: the COLMAP-layout
selection.  It differs from the plain layout: `NeRF*` has ratio 1.0, and
the default (hypernerf) branch selects only `ids[::4]` (no validation
images). -/
def nerfiesColmapSelect (name : String) (d : NerfiesManifest) :
    List String × ℕ × ℚ :=
  if strStartsWith name "vrig" then
    (d.trainIds ++ d.valIds, d.trainIds.length, 1 / 4)
  else if strStartsWith name "NeRF" then
    (d.trainIds ++ d.valIds, d.trainIds.length, 1)
  else if strStartsWith name "interp" then
    (strideSlice 0 d.ids ++ strideSlice 2 d.ids, (strideSlice 0 d.ids).length, 1 / 2)
  else
    (strideSlice 0 d.ids, (strideSlice 0 d.ids).length, 1 / 2)

/-- Line 569: `name2idx = {cam.image_name: idx for idx, cam in ...}` — a
dict comprehension, so for duplicate names the last index wins. -/
def lastIdxOfName (nm : String) (cams : List CameraInfo) : Option ℕ :=
  ((cams.enum.filter (fun p => p.2.imageName == nm)).map Prod.fst).getLast?

/-- Lines 571–574: `cam_infos.append(cam_infos_unsorted[name2idx[all_img[idx]]])`
(a missing name is a KeyError).  Line 574 then evaluates
`cam_infos[-1]._replace(fid=all_time[idx])` and DISCARDS the result —
`NamedTuple._replace` returns a copy — so the appended record keeps the fid
computed by `readColmapCameras`. -/
def pickByName (unsorted : List CameraInfo) :
    List String → Except String (List CameraInfo)
  | [] => Except.ok []
  | nm :: rest =>
    match lastIdxOfName nm unsorted, pickByName unsorted rest with
    | none, _ => Except.error "KeyError: name2idx"
    | some _, Except.error e => Except.error e
    | some i, Except.ok cams =>
      match unsorted.get? i with
      | none => Except.error "IndexError"
      | some cam => Except.ok (cam :: cams)

/-- `readNerfiesColmapCameras` (lines 524–575), restricted to the data the
claim mentions.  `all_time` is computed at lines 555–558 exactly as in the
plain reader but — because line 574 discards the `_replace` result — never
reaches the returned records. -/
def readNerfiesColmapCameras (name : String) (d : NerfiesManifest)
    (timeId : String → ℕ) (extrs : List ExtrEntry)
    (intrs : ℕ → Option IntrEntry) (fs : String → Option (ℕ × ℕ)) :
    Except String (List CameraInfo) :=
  let allImg := (nerfiesColmapSelect name d).1
  let maxTime : ℕ := (allImg.map timeId).foldr max 0
  let allTime := allImg.map (fun im => (timeId im : ℚ) / (maxTime : ℚ))
  match readColmapCameras extrs intrs fs false with
  | Except.error e => Except.error e
  | Except.ok unsorted =>
    -- line 574: `cam_infos[-1]._replace(fid=all_time[idx])` is a no-op;
    -- `allTime` is dead from here on, exactly as in the source.
    let _ := allTime
    pickByName unsorted allImg

/-- C1 witness data: a vrig scene with two images "0" and "5", time ids 0
and 5, and a two-frame COLMAP reconstruction of the same images. -/
def nerfD : NerfiesManifest := { trainIds := ["0"], valIds := ["5"], ids := [] }

def nerfTimeId : String → ℕ := fun s => if s == "5" then 5 else 0

def nerfExtrs : List ExtrEntry :=
  [{ name := "0.png", R := 1, tvec := fun _ => 0, cameraId := 1 },
   { name := "5.png", R := 1, tvec := fun _ => 0, cameraId := 1 }]

/-- C1 (code bug at line 574): in the COLMAP layout the returned fids are
the `int(image_name) / (num_frames - 1)` values from `readColmapCameras`
(here `[0, 5]`), not the normalized `time_id / max(time_id)` axis (here
`[0, 1]`) that the spec states and line 574 plainly intends —
`_replace` returns a copy that the code drops.  The plain layout is
unaffected (`readNerfiesCamerasFids_normalized`). -/
theorem C1_nerfies_colmap_fid_code_bug :
    (readNerfiesColmapCameras "vrig_scene" nerfD nerfTimeId nerfExtrs intrW fsW).toOption.map
        (fun l => l.map (fun c => c.fid)) =
      some [colmapFid "0" 2, colmapFid "5" 2] ∧
    colmapFid "0" 2 = 0 ∧
    colmapFid "5" 2 = 5 ∧
    ((nerfiesColmapSelect "vrig_scene" nerfD).1.map
        (fun im => (nerfTimeId im : ℚ) /
          ((((nerfiesColmapSelect "vrig_scene" nerfD).1.map nerfTimeId).foldr max 0 : ℕ) : ℚ)))
      = [0, 1] ∧
    (5 : ℚ) ≠ 1 := by
  have hp0 : pyInt "0" = some 0 := rfl
  have hp5 : pyInt "5" = some 5 := rfl
  have hsel : (nerfiesColmapSelect "vrig_scene" nerfD).1 = ["0", "5"] := rfl
  have ht0 : nerfTimeId "0" = 0 := rfl
  have ht5 : nerfTimeId "5" = 5 := rfl
  refine ⟨rfl, ?_, ?_, ?_, by norm_num⟩
  · rw [colmapFid, hp0]
    norm_num
  · rw [colmapFid, hp5]
    norm_num
  · rw [hsel]
    simp only [List.map_cons, List.map_nil, ht0, ht5, List.foldr_cons, List.foldr_nil]
    norm_num

end SADG
